import Mathlib

/-!
Verification of the matching engine of MISP/PyMISPWarningLists
(`pymispwarninglists/api.py`): the `NetworkFilter` binary trie,
`compile_network_filters`, `convert_networks`, the `WarningList`
matcher and the `WarningLists` catalog.

Machine integers are modelled as `Nat`; the Python `ValueError`
raised by a negative shift count in `NetworkFilter._get_digit`
is modelled by returning `none`; exceptions raised during
construction are modelled with `Except`/`Option`.
-/

/-- An already parsed IP network, the result of the Python call
`ipaddress.ip_network`: the address family, the prefix length and the
network address as an integer.  Parsing itself is performed by the
Python standard library (an external collaborator), so entries reach
`compile_network_filters` as `Option Network` (`none` = the entry
failed to parse and was skipped by `convert_networks`). -/
structure Network where
  isV4 : Bool
  prefixlen : Nat
  addr : Nat
  deriving DecidableEq, Repr

/-- `max_prefixlen` of the family: 32 for IPv4, 128 for IPv6. -/
def Network.width (net : Network) : Nat := if net.isV4 then 32 else 128

/-- The bit position at which an insertion of this network terminates:
`max_prefixlen - prefixlen` in the source. -/
def Network.tpos (net : Network) : Nat := net.width - net.prefixlen

/-- What `ipaddress.ip_network` guarantees about any value it returns:
the prefix length is bounded by the family width, the network address
fits the family width and its host bits are zero. -/
def Network.Valid (net : Network) : Prop :=
  net.prefixlen ≤ net.width ∧ net.addr < 2 ^ net.width ∧
    net.addr % 2 ^ net.tpos = 0

instance (net : Network) : Decidable net.Valid := by
  unfold Network.Valid; infer_instance

/-- `A` lies within the range of the network: between the network
address and the broadcast address. -/
def Network.inRange (net : Network) (a : Nat) : Prop :=
  net.addr ≤ a ∧ a < net.addr + 2 ^ net.tpos

instance (net : Network) (a : Nat) : Decidable (net.inRange a) := by
  unfold Network.inRange; infer_instance

mutual
/-- `NetworkFilter`: a node of the binary trie.  The first field is
`digit_position` (an `Int`, as in Python it may become negative on the
buggy path), the other two are `digit2filter[0]` and `digit2filter[1]`. -/
inductive NetworkFilter where
  | mk : Int → NFChild → NFChild → NetworkFilter
  deriving DecidableEq, Repr

/-- A value of the `digit2filter` dictionary: either a boolean
(`False` = no coverage, `True` = the whole subtree is covered) or a
nested `NetworkFilter`. -/
inductive NFChild where
  | leaf : Bool → NFChild
  | node : NetworkFilter → NFChild
  deriving DecidableEq, Repr
end

namespace NetworkFilter

/-- `NetworkFilter(pos)`: a fresh node, both children `False`. -/
def empty (pos : Int) : NetworkFilter := .mk pos (.leaf false) (.leaf false)

/-- `_get_digit`: `(ip >> digit_position) & 1`.  Callers guard the
negative-shift `ValueError` themselves. -/
def getDigit (ip : Nat) (pos : Int) : Nat := (ip >>> pos.toNat) % 2

/-- The stored `digit_position` of a node. -/
def pos : NetworkFilter → Int
  | .mk p _ _ => p

/-- `digit2filter[d]` of a node. -/
def child (f : NetworkFilter) (d : Nat) : NFChild :=
  match f with
  | .mk _ c0 c1 => if d = 1 then c1 else c0

/-- `digit2filter[d] = c` on a node. -/
def setChild (f : NetworkFilter) (d : Nat) (c : NFChild) : NetworkFilter :=
  match f with
  | .mk p c0 c1 => if d = 1 then .mk p c0 c else .mk p c c1

mutual
/-- `__contains__(ip)`: look up the digit of `ip` at the position of the node, return boolean children directly, descend into nested
nodes.  `none` models the `ValueError` a negative `digit_position`
would raise in `_get_digit`. -/
def containsIp : NetworkFilter → Nat → Option Bool
  | .mk p c0 c1, ip =>
    if p < 0 then none
    else if getDigit ip p = 1 then containsIpC c1 ip
    else containsIpC c0 ip

/-- `__contains__` on a `digit2filter` value. -/
def containsIpC : NFChild → Nat → Option Bool
  | .leaf b, _ => some b
  | .node g, ip => containsIp g ip
end

/-- The node built when a network terminates at position `pos`:
the child at the digit of the network is `True`, the other stays `False`. -/
def single (pos : Int) (d : Nat) : NetworkFilter :=
  (empty pos).setChild d (.leaf true)

/-- `append` restricted to a chain of freshly created nodes: the path
`child = NetworkFilter(self.digit_position - 1); child.append(net)`
of the source, at node position `n`.  Structural recursion on the
position. -/
def freshAppendN : Nat → Network → Option NetworkFilter
  | 0, net =>
    if net.tpos = 0 then some (single 0 (getDigit net.addr 0)) else none
  | n + 1, net =>
    if net.tpos = n + 1 then some (single (n + 1) (getDigit net.addr (n + 1)))
    else
      match freshAppendN n net with
      | none => none
      | some g =>
        some ((empty (n + 1)).setChild (getDigit net.addr (n + 1)) (.node g))

/-- Appending into a fresh `NetworkFilter(pos)`; a negative position
raises (`none`), as `_get_digit` does in the source. -/
def freshAppend (pos : Int) (net : Network) : Option NetworkFilter :=
  if pos < 0 then none else freshAppendN pos.toNat net

mutual
/-- `NetworkFilter.append(net)`.  Mutation is modelled by returning the
updated node; `none` models the `ValueError` escaping from
`_get_digit` when the recursion walks below bit position 0. -/
def append : NetworkFilter → Network → Option NetworkFilter
  | .mk p c0 c1, net =>
    if p < 0 then none
    else if (net.tpos : Int) = p then
      some ((NetworkFilter.mk p c0 c1).setChild (getDigit net.addr p) (.leaf true))
    else if getDigit net.addr p = 1 then
      match appendC c1 p net with
      | none => none
      | some c => some (NetworkFilter.mk p c0 c)
    else
      match appendC c0 p net with
      | none => none
      | some c => some (NetworkFilter.mk p c c1)

/-- The effect of `append` on the selected `digit2filter` value of a
node at position `p`, when the network does not terminate at `p`:
a `False` child is replaced by a freshly built chain, a `True` child
is left alone, a nested node is appended into. -/
def appendC : NFChild → Int → Network → Option NFChild
  | .leaf false, p, net =>
    match freshAppend (p - 1) net with
    | none => none
    | some g => some (.node g)
  | .leaf true, _, _ => some (.leaf true)
  | .node g, _, net =>
    match append g net with
    | none => none
    | some g' => some (.node g')
end

end NetworkFilter

/-- `convert_networks`: keep the entries that parsed, in order
(invalid ones are only logged). -/
def convert_networks (values : List (Option Network)) : List Network :=
  values.filterMap id

/-- The body of the loop of `compile_network_filters`: route the
network to the root of its family and append it there. -/
def compileStep (fs : NetworkFilter × NetworkFilter) (net : Network) :
    Option (NetworkFilter × NetworkFilter) :=
  if net.isV4 then (fs.1.append net).map (fun f => (f, fs.2))
  else (fs.2.append net).map (fun f => (fs.1, f))

/-- `compile_network_filters`: fold the parsed networks into the two
family roots (`NetworkFilter(31)`, `NetworkFilter(127)`); an exception
from `append` aborts the construction (`none`). -/
def compile_network_filters (values : List (Option Network)) :
    Option (NetworkFilter × NetworkFilter) :=
  (convert_networks values).foldlM compileStep
    (NetworkFilter.empty 31, NetworkFilter.empty 127)

/-- Build the filters from `values` and query the IPv4 filter. -/
def queryV4 (values : List (Option Network)) (ip : Nat) : Option Bool :=
  (compile_network_filters values).bind (fun fs => fs.1.containsIp ip)

/-- Build the filters from `values` and query the IPv6 filter. -/
def queryV6 (values : List (Option Network)) (ip : Nat) : Option Bool :=
  (compile_network_filters values).bind (fun fs => fs.2.containsIp ip)

namespace NetworkFilter

mutual
/-- Well-formed tries: the node stores exactly the bit position `n`
(as a non-negative integer) and each nested child is well formed one
position lower.  Every filter reachable by successful `append` calls
from a family root satisfies this. -/
inductive WF : Nat → NetworkFilter → Prop where
  | mk : ∀ (n : Nat) (c0 c1 : NFChild), WFC n c0 → WFC n c1 →
      WF n (.mk (n : Int) c0 c1)

/-- Well-formedness of a `digit2filter` value of a node at position
`n`: booleans are always fine, a nested node must live at `n - 1`. -/
inductive WFC : Nat → NFChild → Prop where
  | leaf : ∀ n b, WFC n (.leaf b)
  | node : ∀ n g, WF n g → WFC (n + 1) (.node g)
end

/-- `x` and `y` agree on the `k` bits at positions
`lo, lo + 1, …, lo + k - 1`. -/
def sameRange (x y lo : Nat) : Nat → Bool
  | 0 => true
  | k + 1 => (x.testBit (lo + k) == y.testBit (lo + k)) && sameRange x y lo k

/-- The boolean answer of a query (total on well-formed filters). -/
def getBool (f : NetworkFilter) (ip : Nat) : Bool :=
  (containsIp f ip).getD false

end NetworkFilter

open NetworkFilter in
/-- The network covers the integer `ip`: the bits of `ip` from
position `tpos` up to the top of the family width agree with the bits
of the network address. -/
def coversB (net : Network) (ip : Nat) : Bool :=
  sameRange net.addr ip net.tpos (net.width - net.tpos)

/-- Python `str.endswith`: suffix test on the character sequence. -/
def endswithS (s suffix : String) : Bool := suffix.data.isSuffixOf s.data

/-- Python `needle in haystack` on strings: contiguous substring
test. -/
def isInfixOfS (needle hay : String) : Bool := decide (needle.data <:+: hay.data)

/-- Python `s.lstrip(".")`: drop leading dot characters. -/
def lstripDot (s : String) : String := ⟨s.data.dropWhile (fun c => c == '.')⟩

/-- The external parsing collaborators from the Python standard
library (`ipaddress.ip_network`, `IPv4Address`, `IPv6Address`, and
`urllib.parse.urlparse(...).hostname`), modelled as oracles.
`urlHostname` returns the hostname component when the value parses as
a URL with a truthy (non-empty) hostname, `none` otherwise. -/
structure Parser where
  parseNetwork : String → Option Network
  parseV4 : String → Option Nat
  parseV6 : String → Option Nat
  urlHostname : String → Option String

/-- A warning-list record as consumed by `WarningList.__init__`.
`matching_attributes = none` models an absent key; the version is
kept as an integer (`int(version)` is then the identity). -/
structure WLRecord where
  name : String
  description : String
  version : Int
  type : String
  list : List String
  matching_attributes : Option (List String)
  deriving DecidableEq, Repr

/-- `WarningList.expected_types`. -/
def expected_types : List String :=
  ["string", "substring", "hostname", "cidr", "regex"]

/-- Exceptions a `WarningList` construction can raise:
`unexpectedType` is the `PyMISPWarningListsError` for an unrecognized
type, `valueError` the `ValueError` escaping from
`compile_network_filters`. -/
inductive BuildError where
  | unexpectedType
  | valueError
  deriving DecidableEq, Repr

/-- Python truthiness of the optional `matching_attributes` value: an
absent key or an empty list are falsy and leave the attribute
unset. -/
def truthyMA : Option (List String) → Option (List String)
  | some l => if l.isEmpty then none else some l
  | none => none

/-- The state of a constructed `WarningList`.  The membership set
`set(self.list)` is represented by `list` itself (same membership);
`filters` holds the compiled pair for precise cidr lists. -/
structure WarningList where
  warninglist : WLRecord
  list : List String
  description : String
  version : Int
  name : String
  type : String
  matching_attributes : Option (List String)
  slow_search : Bool
  filters : Option (NetworkFilter × NetworkFilter)
  deriving Repr

/-- `WarningList.__init__`: check the type against `expected_types`
(raising `unexpectedType` otherwise), record the truthy
`matching_attributes`, and for a precise cidr list compile the
network filters (a `ValueError` from the compilation aborts the
construction). -/
def WarningList.build (P : Parser) (w : WLRecord) (slow : Bool) :
    Except BuildError WarningList :=
  if w.type ∈ expected_types then
    if slow && (w.type == "cidr") then
      match compile_network_filters (w.list.map P.parseNetwork) with
      | none => .error .valueError
      | some fs =>
        .ok { warninglist := w, list := w.list, description := w.description,
              version := w.version, name := w.name, type := w.type,
              matching_attributes := truthyMA w.matching_attributes,
              slow_search := slow, filters := some fs }
    else
      .ok { warninglist := w, list := w.list, description := w.description,
            version := w.version, name := w.name, type := w.type,
            matching_attributes := truthyMA w.matching_attributes,
            slow_search := slow, filters := none }
  else .error .unexpectedType

/-- `WarningList.to_dict`. -/
def WarningList.to_dict (wl : WarningList) : WLRecord :=
  { name := wl.name, description := wl.description, version := wl.version,
    type := wl.type, list := wl.list,
    matching_attributes := wl.matching_attributes }

/-- `WarningList._fast_search`: exact membership in the entry set. -/
def WarningList.fast_search (wl : WarningList) (value : String) : Bool :=
  wl.list.contains value

/-- The hostname a query value is reduced to: the hostname component
of the value parsed as a URL when truthy, the value itself
otherwise. -/
def hostOf (P : Parser) (value : String) : String :=
  match P.urlHostname value with
  | some h => h
  | none => value

/-- `WarningList._slow_search`.  The result is an `Option` because a
cidr query delegates to `NetworkFilter.__contains__` (and, were the
filters absent, attribute access would fail — `none`). -/
def WarningList.slowSearch (wl : WarningList) (P : Parser) (value : String) :
    Option Bool :=
  if wl.type == "string" then some (wl.fast_search value)
  else if wl.type == "substring" then
    some (wl.list.any (fun v => isInfixOfS v value))
  else if wl.type == "hostname" then
    some (wl.list.any (fun v =>
      hostOf P value == v || endswithS (hostOf P value) ("." ++ lstripDot v)))
  else if wl.type == "cidr" then
    match P.parseV4 value with
    | some ip =>
      match wl.filters with
      | some fs => fs.1.containsIp ip
      | none => none
    | none =>
      match P.parseV6 value with
      | some ip =>
        match wl.filters with
        | some fs => fs.2.containsIp ip
        | none => none
      | none => some (wl.fast_search value)
  else some false

/-- `WarningList.__contains__`. -/
def WarningList.containsQ (wl : WarningList) (P : Parser) (value : String) :
    Option Bool :=
  if wl.slow_search then wl.slowSearch P value
  else some (wl.fast_search value)

/-- `to_dict` of a construction result, `none` when the construction
raised. -/
def to_dictOpt (x : Except BuildError WarningList) : Option WLRecord :=
  match x with
  | .ok wl => some wl.to_dict
  | .error _ => none

/-- Did a construction succeed? -/
def buildOk (x : Except BuildError WarningList) : Bool :=
  match x with
  | .ok _ => true
  | .error _ => false

/-- Exceptions a `WarningLists` catalog construction can raise. -/
inductive CatalogError where
  | emptyCatalog
  | listError (e : BuildError)
  deriving DecidableEq, Repr

/-- Insert into the name-keyed dictionary with Python dict semantics:
replacing keeps the original position, a new key goes at the end. -/
def upsert (m : List (String × WarningList)) (k : String) (v : WarningList) :
    List (String × WarningList) :=
  if m.any (fun pr => pr.1 == k) then
    m.map (fun pr => if pr.1 == k then (k, v) else pr)
  else m ++ [(k, v)]

/-- `WarningLists.__init__`: `lists` is the explicit argument,
`loaded` is what the out-of-scope filesystem loader contributes when
`lists` is falsy (absent or empty).  With no records at all the
construction raises (`emptyCatalog`, the error message about
initializing the submodule); otherwise one `WarningList` per record
goes into the name-keyed dictionary, later records replacing earlier
ones of the same name. -/
def catalogStep (P : Parser) (slow : Bool)
    (acc : List (String × WarningList)) (w : WLRecord) :
    Except CatalogError (List (String × WarningList)) :=
  match WarningList.build P w slow with
  | .error e => .error (.listError e)
  | .ok wl => .ok (upsert acc w.name wl)

def WarningLists.build (P : Parser) (slow : Bool)
    (lists loaded : List WLRecord) :
    Except CatalogError (List (String × WarningList)) :=
  let ls := if lists.isEmpty then loaded else lists
  if ls.isEmpty then .error .emptyCatalog
  else ls.foldlM (catalogStep P slow) []

/-- A default matcher, used only to totalize `buildD`. -/
def defaultWL : WarningList :=
  { warninglist := { name := "", description := "", version := 0,
                     type := "string", list := [],
                     matching_attributes := none },
    list := [], description := "", version := 0, name := "",
    type := "string", matching_attributes := none, slow_search := false,
    filters := none }

/-- The constructed matcher of a successful build (`defaultWL` when
the construction raised); on concrete records this names the built
matcher without spelling out its filter literal. -/
def buildD (P : Parser) (w : WLRecord) (slow : Bool) : WarningList :=
  match WarningList.build P w slow with
  | .ok wl => wl
  | .error _ => defaultWL

/-- Query the family filter of the network: the IPv4 filter for an
IPv4 network, the IPv6 filter otherwise. -/
def Network.query (net : Network) (values : List (Option Network))
    (ip : Nat) : Option Bool :=
  if net.isV4 then queryV4 values ip else queryV6 values ip

/-- The compiled filter pair of a successful compilation (the two
empty roots when the compilation raised); on concrete entry lists
this names the built pair without spelling out its literal. -/
def compiledD (values : List (Option Network)) :
    NetworkFilter × NetworkFilter :=
  (compile_network_filters values).getD
    (NetworkFilter.empty 31, NetworkFilter.empty 127)

/-- The built catalog of a successful catalog construction (empty
when the construction raised). -/
def catalogD (P : Parser) (slow : Bool) (lists loaded : List WLRecord) :
    List (String × WarningList) :=
  match WarningLists.build P slow lists loaded with
  | .ok cat => cat
  | .error _ => []

/-- `0.0.0.0/1` as parsed by `ip_network`. -/
def netHalf : Network := { isV4 := true, prefixlen := 1, addr := 0 }

/-- `0.0.0.0/0` as parsed by `ip_network`. -/
def netZero : Network := { isV4 := true, prefixlen := 0, addr := 0 }

/-- `10.0.0.0/8` as parsed by `ip_network`. -/
def net10slash8 : Network :=
  { isV4 := true, prefixlen := 8, addr := 167772160 }

/-- `1.2.3.4` as parsed by `ip_network` (a bare host address). -/
def netHost1234 : Network :=
  { isV4 := true, prefixlen := 32, addr := 16909060 }

/-- A parser stub for scenarios whose queries involve no parsing. -/
def trivialParser : Parser :=
  { parseNetwork := fun _ => none, parseV4 := fun _ => none,
    parseV6 := fun _ => none, urlHostname := fun _ => none }

/-- Concrete behaviour of the standard-library parsers on the strings
of the cidr scenario. -/
def cidrParser : Parser :=
  { parseNetwork := fun s => if s == "10.0.0.0/8" then some net10slash8
      else none,
    parseV4 := fun s => if s == "10.1.2.3" then some 167838211 else none,
    parseV6 := fun _ => none,
    urlHostname := fun _ => none }

/-- Concrete behaviour of `urlparse(...).hostname` on the strings of
the hostname scenario. -/
def hostParser : Parser :=
  { parseNetwork := fun _ => none, parseV4 := fun _ => none,
    parseV6 := fun _ => none,
    urlHostname := fun s => if s == "http://mail.google.com/x"
      then some "mail.google.com" else none }

/-- Concrete behaviour of the standard-library parsers for the
degraded-cidr scenario: only `1.2.3.4` parses (as an address and as a
network); in particular every string accepted by `IPv4Address` or
`IPv6Address` is also accepted by `ip_network`. -/
def noNetParser : Parser :=
  { parseNetwork := fun s => if s == "1.2.3.4" then some netHost1234
      else none,
    parseV4 := fun s => if s == "1.2.3.4" then some 16909060 else none,
    parseV6 := fun _ => none,
    urlHostname := fun _ => none }

/-- A record with the historical `regex` type. -/
def recRegex : WLRecord :=
  { name := "regex list", description := "d", version := 1,
    type := "regex", list := ["/.*/"], matching_attributes := none }

/-- A plain string-typed record with a truthy `matching_attributes`. -/
def recString : WLRecord :=
  { name := "string list", description := "d", version := 3,
    type := "string", list := ["a", "b"],
    matching_attributes := some ["Attribute.value"] }

/-- A record whose `matching_attributes` key is present but holds an
empty (falsy) list. -/
def recEmptyMA : WLRecord :=
  { name := "string list", description := "d", version := 3,
    type := "string", list := ["a", "b"],
    matching_attributes := some [] }

/-- The cidr scenario record with the single entry `10.0.0.0/8`. -/
def recCidr : WLRecord :=
  { name := "cidr list", description := "d", version := 2,
    type := "cidr", list := ["10.0.0.0/8"], matching_attributes := none }

/-- The hostname scenario record with the single entry `google.com`. -/
def recHost : WLRecord :=
  { name := "hostname list", description := "d", version := 2,
    type := "hostname", list := ["google.com"],
    matching_attributes := none }

/-- A cidr record none of whose entries parses as a network. -/
def recGarbage : WLRecord :=
  { name := "garbage cidr list", description := "d", version := 2,
    type := "cidr", list := ["garbage"], matching_attributes := none }

/-- A record with an unrecognized declared type. -/
def recBadType : WLRecord :=
  { name := "bad list", description := "d", version := 0,
    type := "unknown", list := [], matching_attributes := none }


namespace NetworkFilter

theorem sameRange_iff (x y lo : Nat) : ∀ k, sameRange x y lo k = true ↔
    ∀ j, lo ≤ j → j < lo + k → x.testBit j = y.testBit j := by
  intro k
  induction k with
  | zero => simp [sameRange]; omega
  | succ k ih =>
    simp only [sameRange, Bool.and_eq_true, beq_iff_eq, ih]
    constructor
    · rintro ⟨htop, hrest⟩ j hj1 hj2
      rcases Nat.lt_or_ge j (lo + k) with h | h
      · exact hrest j hj1 h
      · have : j = lo + k := by omega
        simpa [this] using htop
    · intro h
      exact ⟨h (lo + k) (by omega) (by omega),
        fun j hj1 hj2 => h j hj1 (by omega)⟩

theorem getDigit_natCast (ip n : Nat) :
    getDigit ip (n : Int) = (ip >>> n) % 2 := by
  simp [getDigit]

theorem getDigit_eq_one_iff (ip n : Nat) :
    getDigit ip (n : Int) = 1 ↔ ip.testBit n = true := by
  rw [getDigit_natCast, Nat.shiftRight_eq_div_pow, Nat.testBit_to_div_mod]
  simp

theorem getDigit_ne_one_iff (ip n : Nat) :
    ¬ getDigit ip (n : Int) = 1 ↔ ip.testBit n = false := by
  rw [getDigit_eq_one_iff]
  simp

/-- `containsIp` at a well-positioned node, phrased with `testBit`. -/
theorem containsIp_node (n : Nat) (c0 c1 : NFChild) (ip : Nat) :
    containsIp (.mk (n : Int) c0 c1) ip =
      if ip.testBit n then containsIpC c1 ip else containsIpC c0 ip := by
  rw [containsIp]
  have h0 : ¬ ((n : Int) < 0) := not_lt.mpr (Int.natCast_nonneg n)
  rcases h : ip.testBit n with _ | _
  · rw [if_neg h0, if_neg ((getDigit_ne_one_iff ip n).mpr h)]
    simp
  · rw [if_neg h0, if_pos ((getDigit_eq_one_iff ip n).mpr h)]
    simp

/-- `append` at a well-positioned node, phrased with `testBit`. -/
theorem append_node (n : Nat) (c0 c1 : NFChild) (net : Network) :
    append (.mk (n : Int) c0 c1) net =
      if net.tpos = n then
        (if net.addr.testBit n then some (.mk (n : Int) c0 (.leaf true))
         else some (.mk (n : Int) (.leaf true) c1))
      else if net.addr.testBit n then
        (appendC c1 (n : Int) net).map (fun c => .mk (n : Int) c0 c)
      else
        (appendC c0 (n : Int) net).map (fun c => .mk (n : Int) c c1) := by
  rw [append]
  have h0 : ¬ ((n : Int) < 0) := not_lt.mpr (Int.natCast_nonneg n)
  rw [if_neg h0]
  by_cases ht : net.tpos = n
  · rw [if_pos (by exact_mod_cast ht), if_pos ht]
    rcases h : net.addr.testBit n with _ | _
    · rw [setChild, if_neg (by rw [getDigit_ne_one_iff net.addr n] at *; simp [h])]
      simp
    · rw [setChild, if_pos ((getDigit_eq_one_iff net.addr n).mpr h)]
      simp
  · rw [if_neg (by exact_mod_cast ht), if_neg ht]
    rcases h : net.addr.testBit n with _ | _
    · rw [if_neg ((getDigit_ne_one_iff net.addr n).mpr h)]
      cases appendC c0 (n : Int) net <;> simp
    · rw [if_pos ((getDigit_eq_one_iff net.addr n).mpr h)]
      cases appendC c1 (n : Int) net <;> simp

/-- `containsIp` on the one-terminal node `single`. -/
theorem containsIp_single (n a ip : Nat) :
    containsIp (single (n : Int) (getDigit a (n : Int))) ip =
      some (a.testBit n == ip.testBit n) := by
  rcases h : a.testBit n with _ | _
  · rw [single, empty, setChild,
      if_neg (by rw [getDigit_ne_one_iff a n] at *; simp [h]),
      containsIp_node]
    rcases h2 : ip.testBit n with _ | _ <;> simp [containsIpC]
  · rw [single, empty, setChild, if_pos ((getDigit_eq_one_iff a n).mpr h),
      containsIp_node]
    rcases h2 : ip.testBit n with _ | _ <;> simp [containsIpC]

end NetworkFilter

namespace NetworkFilter

theorem WF_single (n : Nat) (d : Nat) : WF n (single (n : Int) d) := by
  rw [single, empty, setChild]
  by_cases h : d = 1
  · rw [if_pos h]; exact WF.mk n _ _ (WFC.leaf n false) (WFC.leaf n true)
  · rw [if_neg h]; exact WF.mk n _ _ (WFC.leaf n true) (WFC.leaf n false)

theorem contains_total : ∀ n : Nat,
    (∀ c, WFC n c → ∀ ip, (containsIpC c ip).isSome = true)
  ∧ (∀ f, WF n f → ∀ ip, (containsIp f ip).isSome = true) := by
  intro n
  induction n with
  | zero =>
    have hc : ∀ c, WFC 0 c → ∀ ip, (containsIpC c ip).isSome = true := by
      intro c hwfc ip
      cases hwfc with
      | leaf => simp [containsIpC]
    refine ⟨hc, ?_⟩
    intro f hwf ip
    cases hwf with
    | mk n c0 c1 h0 h1 =>
      rw [containsIp_node]
      by_cases h : ip.testBit 0 <;> simp [h, hc c0 h0 ip, hc c1 h1 ip]
  | succ m ih =>
    have hc : ∀ c, WFC (m + 1) c → ∀ ip, (containsIpC c ip).isSome = true := by
      intro c hwfc ip
      cases hwfc with
      | leaf => simp [containsIpC]
      | node _ g hg => simpa [containsIpC] using ih.2 g hg ip
    refine ⟨hc, ?_⟩
    intro f hwf ip
    cases hwf with
    | mk n c0 c1 h0 h1 =>
      rw [containsIp_node]
      by_cases h : ip.testBit (m + 1) <;>
        simp [h, hc c0 h0 ip, hc c1 h1 ip]

theorem containsIpC_eq_some (n : Nat) (c : NFChild) (h : WFC n c) (ip : Nat) :
    containsIpC c ip = some ((containsIpC c ip).getD false) := by
  have ht := (contains_total n).1 c h ip
  cases hc : containsIpC c ip
  · rw [hc] at ht; simp at ht
  · simp

theorem containsIp_eq_some (n : Nat) (f : NetworkFilter) (h : WF n f) (ip : Nat) :
    containsIp f ip = some (getBool f ip) := by
  have ht := (contains_total n).2 f h ip
  rw [getBool]
  cases hc : containsIp f ip
  · rw [hc] at ht; simp at ht
  · simp

theorem sameRange_top (a ip t n : Nat) (h : t ≤ n) :
    sameRange a ip t (n + 1 - t) =
      ((a.testBit n == ip.testBit n) && sameRange a ip t (n - t)) := by
  have h1 : n + 1 - t = (n - t) + 1 := by omega
  rw [h1, sameRange]
  have h2 : t + (n - t) = n := by omega
  rw [h2]

theorem freshAppend_pred (m : Nat) (net : Network) :
    freshAppend (((m + 1 : Nat) : Int) - 1) net = freshAppendN m net := by
  have h1 : (((m + 1 : Nat) : Int) - 1) = (m : Int) := by push_cast; ring
  rw [h1, freshAppend, if_neg (not_lt.mpr (Int.natCast_nonneg m))]
  simp

theorem fresh_ok : ∀ (n : Nat) (net : Network), net.tpos ≤ n →
    ∃ g, freshAppendN n net = some g ∧ WF n g ∧
      ∀ ip, containsIp g ip =
        some (sameRange net.addr ip net.tpos (n + 1 - net.tpos)) := by
  intro n
  induction n with
  | zero =>
    intro net h
    have ht : net.tpos = 0 := by omega
    refine ⟨single 0 (getDigit net.addr 0), by rw [freshAppendN, if_pos ht],
      WF_single 0 _, ?_⟩
    intro ip
    rw [show ((0 : Nat) + 1 - net.tpos) = 1 by omega, ht]
    rw [show ((0 : Int) = ((0 : Nat) : Int)) by simp] 
    rw [containsIp_single 0 net.addr ip]
    simp [sameRange]
  | succ m ih =>
    intro net h
    have hcast : ((m : Int) + 1) = ((m + 1 : Nat) : Int) := by push_cast; ring
    by_cases ht : net.tpos = m + 1
    · refine ⟨single ((m + 1 : Nat) : Int) (getDigit net.addr ((m + 1 : Nat) : Int)),
        by rw [freshAppendN, if_pos ht, hcast], WF_single (m + 1) _, ?_⟩
      intro ip
      rw [containsIp_single (m + 1) net.addr ip, ht]
      simp [sameRange]
    · have hfit : net.tpos ≤ m := by omega
      obtain ⟨g, hg, hwfg, hcg⟩ := ih net hfit
      refine ⟨(empty ((m + 1 : Nat) : Int)).setChild
          (getDigit net.addr ((m + 1 : Nat) : Int)) (.node g),
        by rw [freshAppendN, if_neg ht, hg, hcast], ?_, ?_⟩
      · rw [empty, setChild]
        by_cases hd : getDigit net.addr ((m + 1 : Nat) : Int) = 1
        · rw [if_pos hd]
          exact WF.mk (m + 1) _ _ (WFC.leaf _ false) (WFC.node m g hwfg)
        · rw [if_neg hd]
          exact WF.mk (m + 1) _ _ (WFC.node m g hwfg) (WFC.leaf _ false)
      · intro ip
        rw [sameRange_top net.addr ip net.tpos (m + 1) h]
        rcases ha : net.addr.testBit (m + 1) with _ | _
        · rw [empty, setChild,
            if_neg (by rw [getDigit_ne_one_iff net.addr (m + 1)] at *; simp [ha]),
            containsIp_node]
          rcases hi : ip.testBit (m + 1) with _ | _
          · simp [containsIpC, hcg ip]
          · simp [containsIpC]
        · rw [empty, setChild, if_pos ((getDigit_eq_one_iff net.addr (m + 1)).mpr ha),
            containsIp_node]
          rcases hi : ip.testBit (m + 1) with _ | _
          · simp [containsIpC]
          · simp [containsIpC, hcg ip]

end NetworkFilter

namespace NetworkFilter

/-- `append` when the network terminates exactly at this node. -/
theorem append_terminal (n : Nat) (c0 c1 : NFChild) (net : Network)
    (h0 : WFC n c0) (h1 : WFC n c1) (ht : net.tpos = n) :
    ∃ f', append (.mk (n : Int) c0 c1) net = some f' ∧ WF n f' ∧
      ∀ ip, containsIp f' ip =
        some (getBool (.mk (n : Int) c0 c1) ip ||
          sameRange net.addr ip net.tpos (n + 1 - net.tpos)) := by
  have hcnt : n + 1 - net.tpos = 1 := by omega
  rcases ha : net.addr.testBit n with _ | _
  · refine ⟨.mk (n : Int) (.leaf true) c1, ?_,
      WF.mk n _ _ (WFC.leaf n true) h1, ?_⟩
    · rw [append_node, if_pos ht, ha]
      simp
    · intro ip
      rw [hcnt, ht, getBool, containsIp_node, containsIp_node]
      rcases hi : ip.testBit n with _ | _
      · simp [containsIpC, sameRange, ha, hi]
      · rw [containsIpC_eq_some n c1 h1 ip]
        simp [sameRange, ha, hi]
  · refine ⟨.mk (n : Int) c0 (.leaf true), ?_,
      WF.mk n _ _ h0 (WFC.leaf n true), ?_⟩
    · rw [append_node, if_pos ht, ha]
      simp
    · intro ip
      rw [hcnt, ht, getBool, containsIp_node, containsIp_node]
      rcases hi : ip.testBit n with _ | _
      · rw [containsIpC_eq_some n c0 h0 ip]
        simp [sameRange, ha, hi]
      · simp [containsIpC, sameRange, ha, hi]

/-- Correctness of `append` on well-formed filters when the network
fits under the node (`tpos ≤ n`): the append succeeds, stays well
formed, and the query answer picks up exactly the bits
`tpos … n` of the inserted network, on top of the previous answer.
First component: the same statement one level down, for a
`digit2filter` value of a node at position `n`. -/
theorem append_ok : ∀ n : Nat,
    (∀ c net, WFC n c → net.tpos + 1 ≤ n →
      ∃ c', appendC c (n : Int) net = some c' ∧ WFC n c' ∧
        ∀ ip, containsIpC c' ip =
          some ((containsIpC c ip).getD false ||
            sameRange net.addr ip net.tpos (n - net.tpos)))
  ∧ (∀ f net, WF n f → net.tpos ≤ n →
      ∃ f', append f net = some f' ∧ WF n f' ∧
        ∀ ip, containsIp f' ip =
          some (getBool f ip ||
            sameRange net.addr ip net.tpos (n + 1 - net.tpos))) := by
  intro n
  induction n with
  | zero =>
    refine ⟨fun c net _ hfit => absurd hfit (by omega), ?_⟩
    intro f net hwf hfit
    cases hwf with
    | mk n c0 c1 h0 h1 => exact append_terminal 0 c0 c1 net h0 h1 (by omega)
  | succ m ih =>
    have hchild : ∀ c net, WFC (m + 1) c → net.tpos + 1 ≤ m + 1 →
        ∃ c', appendC c ((m + 1 : Nat) : Int) net = some c' ∧ WFC (m + 1) c' ∧
          ∀ ip, containsIpC c' ip =
            some ((containsIpC c ip).getD false ||
              sameRange net.addr ip net.tpos (m + 1 - net.tpos)) := by
      intro c net hwfc hfit
      have hfit' : net.tpos ≤ m := by omega
      cases hwfc with
      | leaf _ b =>
        rcases b with _ | _
        · obtain ⟨g, hg, hwfg, hcg⟩ := fresh_ok m net hfit'
          refine ⟨.node g, ?_, WFC.node m g hwfg, ?_⟩
          · rw [appendC, freshAppend_pred m net, hg]
          · intro ip
            simp [containsIpC, hcg ip]
        · refine ⟨.leaf true, by rw [appendC], WFC.leaf _ true, ?_⟩
          intro ip
          simp [containsIpC]
      | node _ g hg =>
        obtain ⟨g', hg', hwfg', hcg'⟩ := ih.2 g net hg hfit'
        rw [appendC, hg']
        refine ⟨.node g', rfl, WFC.node m g' hwfg', ?_⟩
        intro ip
        simp [containsIpC, hcg' ip, getBool]
    refine ⟨hchild, ?_⟩
    intro f net hwf hfit
    cases hwf with
    | mk n c0 c1 h0 h1 =>
      by_cases ht : net.tpos = m + 1
      · exact append_terminal (m + 1) c0 c1 net h0 h1 ht
      · have hfit2 : net.tpos + 1 ≤ m + 1 := by omega
        rcases ha : net.addr.testBit (m + 1) with _ | _
        · obtain ⟨c', hc', hwfc', hcc'⟩ := hchild c0 net h0 hfit2
          refine ⟨.mk ((m + 1 : Nat) : Int) c' c1, ?_,
            WF.mk (m + 1) _ _ hwfc' h1, ?_⟩
          · rw [append_node, if_neg ht, ha, hc']
            simp
          · intro ip
            rw [containsIp_node,
              sameRange_top net.addr ip net.tpos (m + 1) (by omega),
              getBool, containsIp_node]
            rcases hi : ip.testBit (m + 1) with _ | _
            · rw [hcc' ip]
              simp [ha, hi]
            · rw [containsIpC_eq_some (m + 1) c1 h1 ip]
              simp [ha, hi]
        · obtain ⟨c', hc', hwfc', hcc'⟩ := hchild c1 net h1 hfit2
          refine ⟨.mk ((m + 1 : Nat) : Int) c0 c', ?_,
            WF.mk (m + 1) _ _ h0 hwfc', ?_⟩
          · rw [append_node, if_neg ht, ha, hc']
            simp
          · intro ip
            rw [containsIp_node,
              sameRange_top net.addr ip net.tpos (m + 1) (by omega),
              getBool, containsIp_node]
            rcases hi : ip.testBit (m + 1) with _ | _
            · rw [containsIpC_eq_some (m + 1) c0 h0 ip]
              simp [ha, hi]
            · rw [hcc' ip]
              simp [ha, hi]

end NetworkFilter

namespace NetworkFilter

/-- Any successful `freshAppendN` produces a well-formed subtree. -/
theorem fresh_WF : ∀ (n : Nat) (net : Network) (g : NetworkFilter),
    freshAppendN n net = some g → WF n g := by
  intro n
  induction n with
  | zero =>
    intro net g hg
    rw [freshAppendN] at hg
    by_cases ht : net.tpos = 0
    · rw [if_pos ht] at hg
      cases hg
      exact WF_single 0 _
    · rw [if_neg ht] at hg
      exact absurd hg (by simp)
  | succ m ih =>
    intro net g hg
    have hcast : ((m : Int) + 1) = ((m + 1 : Nat) : Int) := by push_cast; ring
    rw [freshAppendN] at hg
    by_cases ht : net.tpos = m + 1
    · rw [if_pos ht] at hg
      cases hg
      rw [hcast]
      exact WF_single (m + 1) _
    · rw [if_neg ht] at hg
      cases hfm : freshAppendN m net with
      | none =>
        rw [hfm] at hg
        exact absurd hg (by simp)
      | some g0 =>
        rw [hfm] at hg
        cases hg
        rw [hcast, empty, setChild]
        by_cases hd : getDigit net.addr ((m + 1 : Nat) : Int) = 1
        · rw [if_pos hd]
          exact WF.mk (m + 1) _ _ (WFC.leaf _ false)
            (WFC.node m g0 (ih net g0 hfm))
        · rw [if_neg hd]
          exact WF.mk (m + 1) _ _ (WFC.node m g0 (ih net g0 hfm))
            (WFC.leaf _ false)

/-- Any successful `append` preserves well-formedness, with no
assumption on the appended network (this covers the silent no-op
path a `/0` network can take through an already covered child). -/
theorem append_WF : ∀ n : Nat,
    (∀ c net c', WFC n c → appendC c (n : Int) net = some c' → WFC n c')
  ∧ (∀ f net f', WF n f → append f net = some f' → WF n f') := by
  intro n
  induction n with
  | zero =>
    have hc : ∀ (c : NFChild) net c', WFC 0 c →
        appendC c ((0 : Nat) : Int) net = some c' → WFC 0 c' := by
      intro c net c' hwfc happ
      cases hwfc with
      | leaf _ b =>
        rcases b with _ | _
        · have hfr : freshAppend (((0 : Nat) : Int) - 1) net = none := by
            rw [freshAppend, if_pos (by norm_num)]
          rw [appendC, hfr] at happ
          exact absurd happ (by simp)
        · rw [appendC] at happ
          cases happ
          exact WFC.leaf 0 true
    refine ⟨hc, ?_⟩
    intro f net f' hwf happ
    cases hwf with
    | mk n c0 c1 h0 h1 =>
      rw [append_node] at happ
      by_cases ht : net.tpos = 0
      · rw [if_pos ht] at happ
        rcases ha : net.addr.testBit 0 with _ | _ <;> rw [ha] at happ <;>
          cases happ
        · exact WF.mk 0 _ _ (WFC.leaf 0 true) h1
        · exact WF.mk 0 _ _ h0 (WFC.leaf 0 true)
      · rw [if_neg ht] at happ
        rcases ha : net.addr.testBit 0 with _ | _ <;> rw [ha] at happ
        · cases hap : appendC c0 ((0 : Nat) : Int) net with
          | none => rw [hap] at happ; exact absurd happ (by simp)
          | some c' =>
            rw [hap] at happ
            cases happ
            exact WF.mk 0 _ _ (hc c0 net c' h0 hap) h1
        · cases hap : appendC c1 ((0 : Nat) : Int) net with
          | none => rw [hap] at happ; exact absurd happ (by simp)
          | some c' =>
            rw [hap] at happ
            cases happ
            exact WF.mk 0 _ _ h0 (hc c1 net c' h1 hap)
  | succ m ih =>
    have hc : ∀ (c : NFChild) net c', WFC (m + 1) c →
        appendC c ((m + 1 : Nat) : Int) net = some c' → WFC (m + 1) c' := by
      intro c net c' hwfc happ
      cases hwfc with
      | leaf _ b =>
        rcases b with _ | _
        · rw [appendC, freshAppend_pred m net] at happ
          cases hfm : freshAppendN m net with
          | none =>
            rw [hfm] at happ
            exact absurd happ (by simp)
          | some g0 =>
            rw [hfm] at happ
            cases happ
            exact WFC.node m g0 (fresh_WF m net g0 hfm)
        · rw [appendC] at happ
          cases happ
          exact WFC.leaf _ true
      | node _ g hg =>
        rw [appendC] at happ
        cases hap : append g net with
        | none => rw [hap] at happ; exact absurd happ (by simp)
        | some g' =>
          rw [hap] at happ
          cases happ
          exact WFC.node m g' (ih.2 g net g' hg hap)
    refine ⟨hc, ?_⟩
    intro f net f' hwf happ
    cases hwf with
    | mk n c0 c1 h0 h1 =>
      rw [append_node] at happ
      by_cases ht : net.tpos = m + 1
      · rw [if_pos ht] at happ
        rcases ha : net.addr.testBit (m + 1) with _ | _ <;> rw [ha] at happ <;>
          cases happ
        · exact WF.mk (m + 1) _ _ (WFC.leaf _ true) h1
        · exact WF.mk (m + 1) _ _ h0 (WFC.leaf _ true)
      · rw [if_neg ht] at happ
        rcases ha : net.addr.testBit (m + 1) with _ | _ <;> rw [ha] at happ
        · cases hap : appendC c0 ((m + 1 : Nat) : Int) net with
          | none => rw [hap] at happ; exact absurd happ (by simp)
          | some c' =>
            rw [hap] at happ
            cases happ
            exact WF.mk (m + 1) _ _ (hc c0 net c' h0 hap) h1
        · cases hap : appendC c1 ((m + 1 : Nat) : Int) net with
          | none => rw [hap] at happ; exact absurd happ (by simp)
          | some c' =>
            rw [hap] at happ
            cases happ
            exact WF.mk (m + 1) _ _ h0 (hc c1 net c' h1 hap)

end NetworkFilter

namespace NetworkFilter

theorem WF_empty (n : Nat) : WF n (empty (n : Int)) :=
  WF.mk n _ _ (WFC.leaf n false) (WFC.leaf n false)

theorem containsIp_empty (n ip : Nat) :
    containsIp (empty (n : Int)) ip = some false := by
  rw [empty, containsIp_node]
  by_cases h : ip.testBit n <;> simp [h, containsIpC]

theorem getBool_empty (n ip : Nat) : getBool (empty (n : Int)) ip = false := by
  rw [getBool, containsIp_empty]
  rfl

/-- Folding a list of networks that all fit their family root
(`1 ≤ prefixlen ≤ width`) over `compileStep` succeeds and the two
resulting filters answer queries as the union of the inserted
networks of the respective family, on top of the initial answers. -/
theorem fold_ok : ∀ (nets : List Network) (f4 f6 : NetworkFilter),
    WF 31 f4 → WF 127 f6 →
    (∀ net ∈ nets, 1 ≤ net.prefixlen ∧ net.prefixlen ≤ net.width) →
    ∃ g4 g6, nets.foldlM compileStep (f4, f6) = some (g4, g6) ∧
      WF 31 g4 ∧ WF 127 g6 ∧
      (∀ ip, containsIp g4 ip =
        some (getBool f4 ip ||
          nets.any (fun net => net.isV4 && coversB net ip))) ∧
      (∀ ip, containsIp g6 ip =
        some (getBool f6 ip ||
          nets.any (fun net => !net.isV4 && coversB net ip))) := by
  intro nets
  induction nets with
  | nil =>
    intro f4 f6 hwf4 hwf6 _
    refine ⟨f4, f6, rfl, hwf4, hwf6, ?_, ?_⟩
    · intro ip
      rw [containsIp_eq_some 31 f4 hwf4 ip]
      simp
    · intro ip
      rw [containsIp_eq_some 127 f6 hwf6 ip]
      simp
  | cons net nets ih =>
    intro f4 f6 hwf4 hwf6 hval
    have hnet := hval net (List.mem_cons_self net nets)
    have hrest : ∀ n ∈ nets, 1 ≤ n.prefixlen ∧ n.prefixlen ≤ n.width :=
      fun n hn => hval n (List.mem_cons_of_mem net hn)
    by_cases hv : net.isV4
    · have hw : net.width = 32 := by rw [Network.width, if_pos hv]
      have hfit : net.tpos ≤ 31 := by rw [Network.tpos, hw]; omega
      obtain ⟨f4', happ, hwf4', hc4'⟩ := (append_ok 31).2 f4 net hwf4 hfit
      obtain ⟨g4, g6, hfold, hwfg4, hwfg6, hg4, hg6⟩ :=
        ih f4' f6 hwf4' hwf6 hrest
      have hstep : compileStep (f4, f6) net = some (f4', f6) := by
        rw [compileStep, if_pos hv, happ]
        rfl
      have hcov : ∀ ip, getBool f4' ip = (getBool f4 ip || coversB net ip) := by
        intro ip
        rw [getBool, hc4' ip, coversB, hw]
        rw [show (31 + 1 - net.tpos) = 32 - net.tpos by norm_num]
        rfl
      refine ⟨g4, g6, ?_, hwfg4, hwfg6, ?_, ?_⟩
      · rw [List.foldlM_cons, hstep]
        simpa using hfold
      · intro ip
        rw [hg4 ip, hcov ip, List.any_cons]
        simp [hv, Bool.or_assoc]
      · intro ip
        rw [hg6 ip, List.any_cons]
        simp [hv]
    · have hw : net.width = 128 := by rw [Network.width, if_neg hv]
      have hfit : net.tpos ≤ 127 := by rw [Network.tpos, hw]; omega
      obtain ⟨f6', happ, hwf6', hc6'⟩ := (append_ok 127).2 f6 net hwf6 hfit
      obtain ⟨g4, g6, hfold, hwfg4, hwfg6, hg4, hg6⟩ :=
        ih f4 f6' hwf4 hwf6' hrest
      have hstep : compileStep (f4, f6) net = some (f4, f6') := by
        rw [compileStep, if_neg hv, happ]
        rfl
      have hcov : ∀ ip, getBool f6' ip = (getBool f6 ip || coversB net ip) := by
        intro ip
        rw [getBool, hc6' ip, coversB, hw]
        rw [show (127 + 1 - net.tpos) = 128 - net.tpos by norm_num]
        rfl
      refine ⟨g4, g6, ?_, hwfg4, hwfg6, ?_, ?_⟩
      · rw [List.foldlM_cons, hstep]
        simpa using hfold
      · intro ip
        rw [hg4 ip, List.any_cons]
        simp [hv]
      · intro ip
        rw [hg6 ip, hcov ip, List.any_cons]
        simp [hv, Bool.or_assoc]

end NetworkFilter

/-- On a valid network and an in-family integer, the bit-range test
used by the trie coincides with interval membership. -/
theorem coversB_iff (net : Network) (hval : net.Valid) (ip : Nat)
    (hip : ip < 2 ^ net.width) :
    coversB net ip = true ↔ net.inRange ip := by
  obtain ⟨hp, haddr, hmod⟩ := hval
  have htw : net.tpos ≤ net.width := by rw [Network.tpos]; omega
  rw [coversB, NetworkFilter.sameRange_iff]
  have step1 : (∀ j, net.tpos ≤ j → j < net.tpos + (net.width - net.tpos) →
        net.addr.testBit j = ip.testBit j) ↔
      (∀ j, net.tpos ≤ j → net.addr.testBit j = ip.testBit j) := by
    constructor
    · intro h j hj
      rcases Nat.lt_or_ge j net.width with hlt | hge
      · exact h j hj (by omega)
      · rw [Nat.testBit_lt_two_pow, Nat.testBit_lt_two_pow]
        · exact lt_of_lt_of_le hip (Nat.pow_le_pow_right (by norm_num) hge)
        · exact lt_of_lt_of_le haddr (Nat.pow_le_pow_right (by norm_num) hge)
    · intro h j hj _
      exact h j hj
  rw [step1]
  have step2 : (∀ j, net.tpos ≤ j → net.addr.testBit j = ip.testBit j) ↔
      net.addr >>> net.tpos = ip >>> net.tpos := by
    constructor
    · intro h
      apply Nat.eq_of_testBit_eq
      intro i
      rw [Nat.testBit_shiftRight, Nat.testBit_shiftRight]
      exact h (net.tpos + i) (by omega)
    · intro h j hj
      have hj2 : j = net.tpos + (j - net.tpos) := by omega
      rw [hj2, ← Nat.testBit_shiftRight, ← Nat.testBit_shiftRight, h]
  rw [step2, Nat.shiftRight_eq_div_pow, Nat.shiftRight_eq_div_pow,
    Network.inRange]
  have hd : 0 < 2 ^ net.tpos := Nat.pos_pow_of_pos _ (by norm_num)
  constructor
  · intro h
    have h1 := Nat.div_add_mod net.addr (2 ^ net.tpos)
    have h2 := Nat.div_add_mod ip (2 ^ net.tpos)
    have h3 : ip % 2 ^ net.tpos < 2 ^ net.tpos := Nat.mod_lt ip hd
    rw [h] at h1
    omega
  · rintro ⟨hle, hlt⟩
    have hq : 2 ^ net.tpos * (net.addr / 2 ^ net.tpos) = net.addr := by
      have := Nat.div_add_mod net.addr (2 ^ net.tpos)
      omega
    have hq2 : net.addr / 2 ^ net.tpos * 2 ^ net.tpos = net.addr := by
      rw [Nat.mul_comm]
      exact hq
    have hub : ip / 2 ^ net.tpos < net.addr / 2 ^ net.tpos + 1 := by
      rw [Nat.div_lt_iff_lt_mul hd, Nat.add_mul, Nat.one_mul, hq2]
      omega
    have hlb : net.addr / 2 ^ net.tpos ≤ ip / 2 ^ net.tpos := by
      rw [Nat.le_div_iff_mul_le hd, hq2]
      exact hle
    omega

theorem any_cover_v4 (nets : List Network)
    (hval : ∀ net ∈ nets, net.Valid) (ip : Nat) (hip : ip < 2 ^ 32) :
    nets.any (fun net => net.isV4 && coversB net ip) =
      decide (∃ net ∈ nets, net.isV4 = true ∧ net.inRange ip) := by
  have hiff : (nets.any (fun net => net.isV4 && coversB net ip) = true) ↔
      (∃ net ∈ nets, net.isV4 = true ∧ net.inRange ip) := by
    rw [List.any_eq_true]
    constructor
    · rintro ⟨net, hmem, hb⟩
      rw [Bool.and_eq_true] at hb
      obtain ⟨h4, hcov⟩ := hb
      have hw : net.width = 32 := by rw [Network.width, if_pos h4]
      exact ⟨net, hmem, h4,
        (coversB_iff net (hval net hmem) ip (by rw [hw]; exact hip)).mp hcov⟩
    · rintro ⟨net, hmem, h4, hr⟩
      refine ⟨net, hmem, ?_⟩
      rw [Bool.and_eq_true]
      have hw : net.width = 32 := by rw [Network.width, if_pos h4]
      exact ⟨h4,
        (coversB_iff net (hval net hmem) ip (by rw [hw]; exact hip)).mpr hr⟩
  cases hb : nets.any (fun net => net.isV4 && coversB net ip)
  · rw [hb] at hiff
    symm
    rw [decide_eq_false_iff_not]
    intro hx
    exact Bool.false_ne_true (hiff.mpr hx)
  · rw [hb] at hiff
    symm
    rw [decide_eq_true_eq]
    exact hiff.mp rfl

theorem any_cover_v6 (nets : List Network)
    (hval : ∀ net ∈ nets, net.Valid) (ip : Nat) (hip : ip < 2 ^ 128) :
    nets.any (fun net => !net.isV4 && coversB net ip) =
      decide (∃ net ∈ nets, net.isV4 = false ∧ net.inRange ip) := by
  have hiff : (nets.any (fun net => !net.isV4 && coversB net ip) = true) ↔
      (∃ net ∈ nets, net.isV4 = false ∧ net.inRange ip) := by
    rw [List.any_eq_true]
    constructor
    · rintro ⟨net, hmem, hb⟩
      rw [Bool.and_eq_true, Bool.not_eq_true'] at hb
      obtain ⟨h4, hcov⟩ := hb
      have hw : net.width = 128 := by rw [Network.width, if_neg (by simp [h4])]
      exact ⟨net, hmem, h4,
        (coversB_iff net (hval net hmem) ip (by rw [hw]; exact hip)).mp hcov⟩
    · rintro ⟨net, hmem, h4, hr⟩
      refine ⟨net, hmem, ?_⟩
      rw [Bool.and_eq_true, Bool.not_eq_true']
      have hw : net.width = 128 := by rw [Network.width, if_neg (by simp [h4])]
      exact ⟨h4,
        (coversB_iff net (hval net hmem) ip (by rw [hw]; exact hip)).mpr hr⟩
  cases hb : nets.any (fun net => !net.isV4 && coversB net ip)
  · rw [hb] at hiff
    symm
    rw [decide_eq_false_iff_not]
    intro hx
    exact Bool.false_ne_true (hiff.mpr hx)
  · rw [hb] at hiff
    symm
    rw [decide_eq_true_eq]
    exact hiff.mp rfl

/-- Full characterization of a successful compilation: when every
parsed entry has a positive prefix length (and is a valid parser
output), the construction succeeds and each family filter answers
exactly "the queried integer lies in some inserted network of this
family". -/
theorem compile_correct (values : List (Option Network))
    (hval : ∀ net ∈ convert_networks values, net.Valid ∧ 1 ≤ net.prefixlen) :
    ∃ g4 g6, compile_network_filters values = some (g4, g6) ∧
      NetworkFilter.WF 31 g4 ∧ NetworkFilter.WF 127 g6 ∧
      (∀ ip, ip < 2 ^ 32 → NetworkFilter.containsIp g4 ip =
        some (decide (∃ net ∈ convert_networks values,
          net.isV4 = true ∧ net.inRange ip))) ∧
      (∀ ip, ip < 2 ^ 128 → NetworkFilter.containsIp g6 ip =
        some (decide (∃ net ∈ convert_networks values,
          net.isV4 = false ∧ net.inRange ip))) := by
  have hfits : ∀ net ∈ convert_networks values,
      1 ≤ net.prefixlen ∧ net.prefixlen ≤ net.width := by
    intro net hm
    obtain ⟨⟨hp, _, _⟩, h1⟩ := hval net hm
    exact ⟨h1, hp⟩
  obtain ⟨g4, g6, hfold, hwf4, hwf6, h4, h6⟩ :=
    NetworkFilter.fold_ok (convert_networks values)
      (NetworkFilter.empty ((31 : Nat) : Int))
      (NetworkFilter.empty ((127 : Nat) : Int))
      (NetworkFilter.WF_empty 31) (NetworkFilter.WF_empty 127) hfits
  refine ⟨g4, g6, ?_, hwf4, hwf6, ?_, ?_⟩
  · rw [compile_network_filters]
    exact hfold
  · intro ip hip
    rw [h4 ip, NetworkFilter.getBool_empty 31 ip, Bool.false_or]
    exact congrArg some
      (any_cover_v4 (convert_networks values)
        (fun net hm => (hval net hm).1) ip hip)
  · intro ip hip
    rw [h6 ip, NetworkFilter.getBool_empty 127 ip, Bool.false_or]
    exact congrArg some
      (any_cover_v6 (convert_networks values)
        (fun net hm => (hval net hm).1) ip hip)

namespace NetworkFilter

/-- Folding any list of networks that compiles successfully preserves
well-formedness of both family filters. -/
theorem fold_WF : ∀ (nets : List Network) (f4 f6 g4 g6 : NetworkFilter),
    WF 31 f4 → WF 127 f6 →
    nets.foldlM compileStep (f4, f6) = some (g4, g6) →
    WF 31 g4 ∧ WF 127 g6 := by
  intro nets
  induction nets with
  | nil =>
    intro f4 f6 g4 g6 h4 h6 h
    rw [List.foldlM_nil] at h
    simp only [pure, Option.some.injEq, Prod.mk.injEq] at h
    obtain ⟨h1, h2⟩ := h
    rw [← h1, ← h2]
    exact ⟨h4, h6⟩
  | cons net nets ih =>
    intro f4 f6 g4 g6 h4 h6 h
    rw [List.foldlM_cons] at h
    cases hstep : compileStep (f4, f6) net with
    | none =>
      rw [hstep, Option.bind_eq_bind, Option.none_bind] at h
      exact Option.noConfusion h
    | some fs' =>
      rw [hstep, Option.bind_eq_bind, Option.some_bind] at h
      rw [compileStep] at hstep
      by_cases hv : net.isV4
      · rw [if_pos hv] at hstep
        cases hap : NetworkFilter.append f4 net with
        | none => rw [hap] at hstep; simp at hstep
        | some f4' =>
          rw [hap] at hstep
          simp only [Option.map_some', Option.some.injEq] at hstep
          rw [← hstep] at h
          exact ih f4' f6 g4 g6 ((append_WF 31).2 f4 net f4' h4 hap) h6 h
      · rw [if_neg hv] at hstep
        cases hap : NetworkFilter.append f6 net with
        | none => rw [hap] at hstep; simp at hstep
        | some f6' =>
          rw [hap] at hstep
          simp only [Option.map_some', Option.some.injEq] at hstep
          rw [← hstep] at h
          exact ih f4 f6' g4 g6 h4 ((append_WF 127).2 f6 net f6' h6 hap) h
  
/-- A fresh chain never terminates for a network whose termination
position lies above the starting position. -/
theorem fresh_none : ∀ (n : Nat) (net : Network), n < net.tpos →
    freshAppendN n net = none := by
  intro n
  induction n with
  | zero =>
    intro net h
    rw [freshAppendN, if_neg (by omega)]
  | succ m ih =>
    intro net h
    rw [freshAppendN, if_neg (by omega), ih net (by omega)]

/-- Appending a network into the fresh family root fails with a
`ValueError` when the termination position lies above the root (the
`/0` case). -/
theorem append_empty_none (n : Nat) (net : Network) (h : n < net.tpos) :
    append (empty (n : Int)) net = none := by
  rw [empty, append_node, if_neg (by omega)]
  have hfr : freshAppend (((n : Nat) : Int) - 1) net = none := by
    cases n with
    | zero =>
      rw [freshAppend, if_pos (by norm_num)]
    | succ m =>
      rw [freshAppend_pred m net, fresh_none m net (by omega)]
  cases hb : net.addr.testBit n <;>
    rw [appendC, hfr] <;> rfl

end NetworkFilter

/-- The upper end of a valid network never crosses the family
boundary. -/
theorem range_bound (net : Network) (hval : net.Valid) :
    net.addr + 2 ^ net.tpos ≤ 2 ^ net.width := by
  obtain ⟨hp, haddr, hmod⟩ := hval
  have htw : net.tpos ≤ net.width := by rw [Network.tpos]; omega
  obtain ⟨q, hq⟩ := Nat.dvd_of_mod_eq_zero hmod
  have hsplit : 2 ^ net.width = 2 ^ net.tpos * 2 ^ (net.width - net.tpos) := by
    rw [← pow_add]
    congr 1
    omega
  have hqlt : q < 2 ^ (net.width - net.tpos) := by
    by_contra hc
    push_neg at hc
    have : 2 ^ net.width ≤ net.addr := by
      rw [hsplit, hq]
      exact Nat.mul_le_mul_left _ hc
    omega
  have : net.addr + 2 ^ net.tpos ≤ 2 ^ net.tpos * 2 ^ (net.width - net.tpos) := by
    rw [hq]
    calc 2 ^ net.tpos * q + 2 ^ net.tpos = 2 ^ net.tpos * (q + 1) := by ring
      _ ≤ 2 ^ net.tpos * 2 ^ (net.width - net.tpos) :=
        Nat.mul_le_mul_left _ (by omega)
  omega

/-- Querying the filters built from the single entry `net` answers
exactly range membership in `net`, on the family filter of `net`. -/
theorem single_query (net : Network) (hval : net.Valid)
    (hp : 1 ≤ net.prefixlen) (ip : Nat) (hip : ip < 2 ^ net.width) :
    net.query [some net] ip = some (decide (net.inRange ip)) := by
  have hvals : ∀ n ∈ convert_networks [some net], n.Valid ∧ 1 ≤ n.prefixlen := by
    intro n hn
    have : n = net := by
      simpa [convert_networks] using hn
    rw [this]
    exact ⟨hval, hp⟩
  obtain ⟨g4, g6, hc, _, _, h4, h6⟩ := compile_correct [some net] hvals
  by_cases hv : net.isV4
  · have hw : net.width = 32 := by rw [Network.width, if_pos hv]
    rw [Network.query, if_pos hv, queryV4, hc, Option.some_bind,
      h4 ip (by rw [← hw]; exact hip)]
    congr 1
    rw [decide_eq_decide]
    constructor
    · rintro ⟨n, hn, _, hr⟩
      have : n = net := by simpa [convert_networks] using hn
      rw [← this]
      exact hr
    · intro hr
      exact ⟨net, by simp [convert_networks], hv, hr⟩
  · have hw : net.width = 128 := by rw [Network.width, if_neg hv]
    rw [Network.query, if_neg hv, queryV6, hc, Option.some_bind,
      h6 ip (by rw [← hw]; exact hip)]
    congr 1
    rw [decide_eq_decide]
    constructor
    · rintro ⟨n, hn, _, hr⟩
      have : n = net := by simpa [convert_networks] using hn
      rw [← this]
      exact hr
    · intro hr
      exact ⟨net, by simp [convert_networks], by simp [hv], hr⟩

/-- Everything a successful `WarningList` construction guarantees
about the resulting state. -/
theorem build_ok_spec (P : Parser) (w : WLRecord) (slow : Bool)
    (wl : WarningList) (h : WarningList.build P w slow = .ok wl) :
    w.type ∈ expected_types ∧
    wl.warninglist = w ∧ wl.list = w.list ∧
    wl.description = w.description ∧ wl.version = w.version ∧
    wl.name = w.name ∧ wl.type = w.type ∧
    wl.matching_attributes = truthyMA w.matching_attributes ∧
    wl.slow_search = slow ∧
    ((slow && (w.type == "cidr")) = true →
      ∃ fs, compile_network_filters (w.list.map P.parseNetwork) = some fs ∧
        wl.filters = some fs) ∧
    ((slow && (w.type == "cidr")) = false → wl.filters = none) := by
  rw [WarningList.build] at h
  by_cases hm : w.type ∈ expected_types
  · rw [if_pos hm] at h
    by_cases hs : (slow && (w.type == "cidr")) = true
    · rw [if_pos hs] at h
      cases hc : compile_network_filters (w.list.map P.parseNetwork) with
      | none =>
        rw [hc] at h
        exact Except.noConfusion h
      | some fs =>
        rw [hc] at h
        have hwl := Except.ok.inj h
        rw [← hwl]
        refine ⟨hm, rfl, rfl, rfl, rfl, rfl, rfl, rfl, rfl,
          fun _ => ⟨fs, rfl, rfl⟩, fun hcon => ?_⟩
        rw [hs] at hcon
        exact Bool.noConfusion hcon
    · rw [if_neg hs] at h
      have hwl := Except.ok.inj h
      rw [← hwl]
      refine ⟨hm, rfl, rfl, rfl, rfl, rfl, rfl, rfl, rfl,
        fun hcon => absurd hcon hs, fun _ => rfl⟩
  · rw [if_neg hm] at h
    exact Except.noConfusion h

/-- `upsert` never shrinks the dictionary. -/
theorem upsert_length (m : List (String × WarningList)) (k : String)
    (v : WarningList) : m.length ≤ (upsert m k v).length := by
  rw [upsert]
  by_cases h : m.any (fun pr => pr.1 == k)
  · rw [if_pos h, List.length_map]
  · rw [if_neg h, List.length_append]
    omega

/-- The catalog fold never shrinks the accumulated dictionary. -/
theorem catalog_fold_mono : ∀ (ls : List WLRecord) (P : Parser) (slow : Bool)
    (acc cat : List (String × WarningList)),
    ls.foldlM (catalogStep P slow) acc = .ok cat →
    acc.length ≤ cat.length := by
  intro ls
  induction ls with
  | nil =>
    intro P slow acc cat h
    rw [List.foldlM_nil] at h
    exact le_of_eq (congrArg List.length (Except.ok.inj h))
  | cons w ls ih =>
    intro P slow acc cat h
    rw [List.foldlM_cons] at h
    cases hstep : catalogStep P slow acc w with
    | error e =>
      rw [hstep] at h
      exact Except.noConfusion h
    | ok acc' =>
      rw [hstep] at h
      simp only [bind, Except.bind] at h
      have h1 : acc.length ≤ acc'.length := by
        rw [catalogStep] at hstep
        cases hb : WarningList.build P w slow with
        | error e =>
          rw [hb] at hstep
          exact Except.noConfusion hstep
        | ok wl =>
          rw [hb] at hstep
          have := Except.ok.inj hstep
          rw [← this]
          exact upsert_length acc w.name wl
      exact le_trans h1 (ih P slow acc' cat h)

/-- C2 (amended form): `WarningList` construction fails with the
unexpected-type error exactly when the declared type lies outside
`expected_types` — which has five members: the four kinds named by
the claim plus the historical `regex`. -/
theorem claim2_type_invariant (P : Parser) (w : WLRecord) (slow : Bool) :
    WarningList.build P w slow = .error .unexpectedType ↔
      w.type ∉ expected_types := by
  rw [WarningList.build]
  by_cases hm : w.type ∈ expected_types
  · rw [if_pos hm]
    constructor
    · intro h
      exfalso
      by_cases hs : (slow && (w.type == "cidr")) = true
      · rw [if_pos hs] at h
        cases hc : compile_network_filters (w.list.map P.parseNetwork) with
        | none =>
          rw [hc] at h
          exact BuildError.noConfusion (Except.error.inj h)
        | some fs =>
          rw [hc] at h
          exact Except.noConfusion h
      · rw [if_neg hs] at h
        exact Except.noConfusion h
    · intro hn
      exact absurd hm hn
  · rw [if_neg hm]
    simp [hm]

/-- C2 counterexample: a record typed `regex` is accepted by the
construction although `regex` is not among the four kinds the claim
recognizes. -/
theorem claim2_counterexample :
    buildOk (WarningList.build trivialParser recRegex false) = true ∧
    recRegex.type ∉ ["string", "substring", "hostname", "cidr"] :=
  ⟨by decide, by decide⟩

/-- C5 (amended form): dumping a successfully constructed matcher
reproduces the input record, except that a present-but-falsy
`matching_attributes` (an empty list) is dropped from the dump. -/
theorem claim5_roundtrip (P : Parser) (w : WLRecord) (slow : Bool)
    (wl : WarningList) (h : WarningList.build P w slow = .ok wl) :
    wl.to_dict =
      { w with matching_attributes := truthyMA w.matching_attributes } := by
  obtain ⟨_, _, hlist, hdesc, hver, hname, htype, hma, _, _, _⟩ :=
    build_ok_spec P w slow wl h
  rw [WarningList.to_dict, hlist, hdesc, hver, hname, htype, hma]

/-- C5 witness: on a record whose `matching_attributes` is truthy the
round trip is exact. -/
theorem claim5_witness :
    WarningList.build trivialParser recString false =
      .ok (buildD trivialParser recString false) ∧
    (buildD trivialParser recString false).to_dict = recString := by
  refine ⟨rfl, ?_⟩
  rw [claim5_roundtrip trivialParser recString false
    (buildD trivialParser recString false) rfl]
  decide

/-- C5 counterexample: a record with `matching_attributes` present
but empty is accepted, yet its dump drops the key, so the round trip
is not exact. -/
theorem claim5_counterexample :
    buildOk (WarningList.build trivialParser recEmptyMA false) = true ∧
    to_dictOpt (WarningList.build trivialParser recEmptyMA false) ≠
      some recEmptyMA :=
  ⟨by decide, by decide⟩

/-- C9: with zero records (no explicit lists and nothing from the
out-of-scope loader) the catalog construction fails with the explicit
empty-catalog error, and a successful construction never yields an
empty catalog. -/
theorem claim9_empty_catalog (P : Parser) (slow : Bool)
    (lists loaded : List WLRecord) :
    (lists = [] → loaded = [] →
      WarningLists.build P slow lists loaded = .error .emptyCatalog) ∧
    (∀ cat, WarningLists.build P slow lists loaded = .ok cat →
      cat ≠ []) := by
  constructor
  · intro h1 h2
    rw [h1, h2, WarningLists.build]
    rfl
  · intro cat hcat hnil
    simp only [WarningLists.build] at hcat
    by_cases he : (if lists.isEmpty then loaded else lists).isEmpty
    · rw [if_pos he] at hcat
      exact Except.noConfusion hcat
    · rw [if_neg he] at hcat
      obtain ⟨w, ls', hls⟩ :
          ∃ w ls', (if lists.isEmpty then loaded else lists) = w :: ls' := by
        cases hl : (if lists.isEmpty then loaded else lists) with
        | nil => rw [hl] at he; simp at he
        | cons w ls' => exact ⟨w, ls', rfl⟩
      rw [hls, List.foldlM_cons] at hcat
      cases hstep : catalogStep P slow [] w with
      | error e =>
        rw [hstep] at hcat
        simp only [bind, Except.bind] at hcat
        exact Except.noConfusion hcat
      | ok acc' =>
        rw [hstep] at hcat
        simp only [bind, Except.bind] at hcat
        have hlen := catalog_fold_mono ls' P slow acc' cat hcat
        have hacc : 1 ≤ acc'.length := by
          rw [catalogStep] at hstep
          cases hb : WarningList.build P w slow with
          | error e =>
            rw [hb] at hstep
            exact Except.noConfusion hstep
          | ok wl =>
            rw [hb] at hstep
            have hup := Except.ok.inj hstep
            rw [← hup, upsert, if_neg (by simp)]
            simp
        have hz : cat.length = 0 := by
          rw [hnil]
          rfl
        omega

/-- C9 witness: the empty input fails with the empty-catalog error
and a one-record input builds a non-empty catalog. -/
theorem claim9_witness :
    WarningLists.build trivialParser false
      ([] : List WLRecord) ([] : List WLRecord) = .error .emptyCatalog ∧
    catalogD trivialParser false [recString] [] ≠ [] := by
  constructor
  · exact (claim9_empty_catalog trivialParser false [] []).1 rfl rfl
  · exact (claim9_empty_catalog trivialParser false [recString] []).2
      (catalogD trivialParser false [recString] []) rfl

/-- C10: a record declared with the historical `regex` type is
accepted by the construction, and in precise mode every containment
query on such a list answers false, whatever the entries. -/
theorem claim10_regex (P : Parser) (w : WLRecord) (hw : w.type = "regex") :
    ∃ wl, WarningList.build P w true = .ok wl ∧ wl.slow_search = true ∧
      ∀ value, wl.containsQ P value = some false := by
  have hm : w.type ∈ expected_types := by
    rw [hw, expected_types]
    simp
  have hcond : ¬ ((true && (w.type == "cidr")) = true) := by
    rw [hw]
    decide
  rw [WarningList.build, if_pos hm, if_neg hcond]
  refine ⟨_, rfl, rfl, fun value => ?_⟩
  rw [hw]
  rfl

/-- C10 witness: the concrete regex-typed record is accepted and a
precise query answers false. -/
theorem claim10_witness :
    (buildD trivialParser recRegex true).containsQ trivialParser "8.8.8.8" =
      some false := by
  obtain ⟨wl, hwl, _, hc⟩ := claim10_regex trivialParser recRegex rfl
  have he : buildD trivialParser recRegex true = wl := by
    rw [buildD, hwl]
  rw [he]
  exact hc "8.8.8.8"

/-- The full query pipeline of a precise cidr list: parse as IPv4
first, then as IPv6, query the matching compiled filter, and fall
back to exact membership when the value is no IP address. -/
theorem cidr_dispatch (P : Parser) (w : WLRecord) (wl : WarningList)
    (hb : WarningList.build P w true = .ok wl) (ht : w.type = "cidr") :
    ∃ fs, compile_network_filters (w.list.map P.parseNetwork) = some fs ∧
      wl.filters = some fs ∧
      ∀ value, wl.containsQ P value =
        (match P.parseV4 value with
         | some ip => fs.1.containsIp ip
         | none =>
           match P.parseV6 value with
           | some ip => fs.2.containsIp ip
           | none => some (wl.fast_search value)) := by
  obtain ⟨_, _, _, _, _, _, htype, _, hslow, hcidr, _⟩ :=
    build_ok_spec P w true wl hb
  obtain ⟨fs, hcomp, hfil⟩ := hcidr (by rw [ht]; rfl)
  refine ⟨fs, hcomp, hfil, fun value => ?_⟩
  rw [WarningList.containsQ, hslow, if_pos rfl,
    WarningList.slowSearch, htype, ht]
  simp only [hfil]
  cases h4 : P.parseV4 value with
  | some ip => simp
  | none =>
    cases h6 : P.parseV6 value with
    | some ip => simp
    | none => simp

/-- C4: a precise cidr list all of whose entries failed to parse as
networks degrades to exact string membership for every query value.
The two consistency hypotheses state the standard-library fact that a
string accepted by `IPv4Address` or `IPv6Address` is also accepted by
`ip_network`. -/
theorem claim4_degraded (P : Parser) (w : WLRecord) (wl : WarningList)
    (hb : WarningList.build P w true = .ok wl) (ht : w.type = "cidr")
    (hfail : ∀ e ∈ w.list, P.parseNetwork e = none)
    (hcons4 : ∀ s ip, P.parseV4 s = some ip → P.parseNetwork s ≠ none)
    (hcons6 : ∀ s ip, P.parseV6 s = some ip → P.parseNetwork s ≠ none) :
    ∀ value, wl.containsQ P value = some (wl.fast_search value) := by
  obtain ⟨fs, hcomp, hfil, hq⟩ := cidr_dispatch P w wl hb ht
  have hnil : convert_networks (w.list.map P.parseNetwork) = [] := by
    rw [convert_networks, List.filterMap_map]
    rw [List.filterMap_eq_nil_iff]
    intro a ha
    simp [hfail a ha]
  have hfs : fs = (NetworkFilter.empty 31, NetworkFilter.empty 127) := by
    rw [compile_network_filters, hnil, List.foldlM_nil] at hcomp
    exact (Option.some.inj hcomp).symm
  have hlist : wl.list = w.list := (build_ok_spec P w true wl hb).2.2.1
  intro value
  rw [hq value]
  cases h4 : P.parseV4 value with
  | some ip =>
    have hfalse : wl.fast_search value = false := by
      cases hcon : wl.fast_search value with
      | false => rfl
      | true =>
        exfalso
        rw [WarningList.fast_search, hlist] at hcon
        have hmem : value ∈ w.list := by simpa using hcon
        exact hcons4 value ip h4 (hfail value hmem)
    rw [hfs, hfalse]
    exact NetworkFilter.containsIp_empty 31 ip
  | none =>
    cases h6 : P.parseV6 value with
    | some ip =>
      have hfalse : wl.fast_search value = false := by
        cases hcon : wl.fast_search value with
        | false => rfl
        | true =>
          exfalso
          rw [WarningList.fast_search, hlist] at hcon
          have hmem : value ∈ w.list := by simpa using hcon
          exact hcons6 value ip h6 (hfail value hmem)
      rw [hfs, hfalse]
      exact NetworkFilter.containsIp_empty 127 ip
    | none => rfl

/-- C4 witness: the concrete garbage cidr list in precise mode, with
the concrete parser, degrades to exact membership on the IP-shaped
query `1.2.3.4`. -/
theorem claim4_witness :
    WarningList.build noNetParser recGarbage true =
      .ok (buildD noNetParser recGarbage true) ∧
    (buildD noNetParser recGarbage true).containsQ noNetParser "1.2.3.4" =
      some ((buildD noNetParser recGarbage true).fast_search "1.2.3.4") := by
  refine ⟨rfl, ?_⟩
  refine claim4_degraded noNetParser recGarbage
    (buildD noNetParser recGarbage true) rfl rfl (by decide) ?_ ?_ "1.2.3.4"
  · intro s ip h
    have hs : s = "1.2.3.4" := by
      simp [noNetParser] at h
      exact h.1
    simp [noNetParser, hs]
  · intro s ip h
    simp [noNetParser] at h

/-- C6: the precise-mode dispatch of a cidr list — an IPv4-parsable
value is decided by the IPv4 filter, otherwise an IPv6-parsable value
by the IPv6 filter, and anything else by exact membership. -/
theorem claim6_cidr_dispatch (P : Parser) (w : WLRecord) (wl : WarningList)
    (hb : WarningList.build P w true = .ok wl) (ht : w.type = "cidr")
    (value : String) :
    (∀ ip, P.parseV4 value = some ip →
      ∃ fs, wl.filters = some fs ∧
        wl.containsQ P value = fs.1.containsIp ip) ∧
    (P.parseV4 value = none → ∀ ip, P.parseV6 value = some ip →
      ∃ fs, wl.filters = some fs ∧
        wl.containsQ P value = fs.2.containsIp ip) ∧
    (P.parseV4 value = none → P.parseV6 value = none →
      wl.containsQ P value = some (wl.fast_search value)) := by
  obtain ⟨fs, _, hfil, hq⟩ := cidr_dispatch P w wl hb ht
  refine ⟨fun ip h4 => ⟨fs, hfil, ?_⟩, fun h4 ip h6 => ⟨fs, hfil, ?_⟩,
    fun h4 h6 => ?_⟩
  · rw [hq value, h4]
  · rw [hq value, h4, h6]
  · rw [hq value, h4, h6]

/-- C6 witness (scenario 6): on the cidr list with entry
`10.0.0.0/8`, the precise query `10.1.2.3` answers true while the
fast query answers false. -/
theorem claim6_witness :
    (buildD cidrParser recCidr true).containsQ cidrParser "10.1.2.3" =
      some true ∧
    (buildD cidrParser recCidr true).fast_search "10.1.2.3" = false := by
  constructor
  · obtain ⟨fs, hfs, hq⟩ := (claim6_cidr_dispatch cidrParser recCidr
      (buildD cidrParser recCidr true) rfl rfl "10.1.2.3").1 167838211 rfl
    rw [hq]
    have hval : (buildD cidrParser recCidr true).filters =
        some (compiledD (recCidr.list.map cidrParser.parseNetwork)) := rfl
    rw [hval] at hfs
    obtain rfl := Option.some.inj hfs
    decide
  · decide

/-- C7: precise hostname matching — the candidate hostname is the URL
hostname component when available, the raw value otherwise, and the
query answers true exactly when the hostname equals some entry or
ends with a dot followed by the entry stripped of its leading
dots. -/
theorem claim7_hostname (P : Parser) (w : WLRecord) (wl : WarningList)
    (hb : WarningList.build P w true = .ok wl) (ht : w.type = "hostname")
    (value : String) :
    ∃ b, wl.containsQ P value = some b ∧
      (b = true ↔ ∃ v ∈ w.list, hostOf P value = v ∨
        ∃ pre, (hostOf P value).data =
          pre ++ ('.' :: (lstripDot v).data)) := by
  obtain ⟨_, _, hlist, _, _, _, htype, _, hslow, _, _⟩ :=
    build_ok_spec P w true wl hb
  refine ⟨wl.list.any (fun v =>
      hostOf P value == v || endswithS (hostOf P value) ("." ++ lstripDot v)),
    ?_, ?_⟩
  · rw [WarningList.containsQ, hslow, if_pos rfl, WarningList.slowSearch,
      htype, ht]
    simp
  · rw [List.any_eq_true, hlist]
    constructor
    · rintro ⟨v, hv, hb2⟩
      rw [Bool.or_eq_true] at hb2
      refine ⟨v, hv, ?_⟩
      rcases hb2 with hb2 | hb2
      · exact Or.inl (eq_of_beq hb2)
      · right
        rw [endswithS, List.isSuffixOf_iff_suffix] at hb2
        obtain ⟨t, htt⟩ := hb2
        refine ⟨t, ?_⟩
        rw [← htt, String.data_append]
        rfl
    · rintro ⟨v, hv, hcase⟩
      refine ⟨v, hv, ?_⟩
      rw [Bool.or_eq_true]
      rcases hcase with hcase | ⟨pre, hpre⟩
      · exact Or.inl (beq_iff_eq.mpr hcase)
      · right
        rw [endswithS, List.isSuffixOf_iff_suffix]
        refine ⟨pre, ?_⟩
        rw [String.data_append, hpre]
        rfl

/-- C7 witness (scenario 2): on the hostname list with entry
`google.com`, the query `http://mail.google.com/x` answers true via
the hostname suffix match. -/
theorem claim7_witness :
    (buildD hostParser recHost true).containsQ hostParser
      "http://mail.google.com/x" = some true := by
  obtain ⟨b, hbq, hiff⟩ := claim7_hostname hostParser recHost
    (buildD hostParser recHost true) rfl rfl "http://mail.google.com/x"
  have hb2 : b = true := by
    rw [hiff]
    refine ⟨"google.com", by decide, Or.inr ⟨"mail".data, ?_⟩⟩
    decide
  rw [hbq, hb2]

/-- C1 (amended form): provided every entry that parsed as a network
has prefix length at least 1, the compilation succeeds, each family
query answers exactly "the address lies within the range of at least
one parsed entry of that family", and the answers are invariant under
any permutation of the entries. -/
theorem claim1_characterization (values : List (Option Network))
    (hval : ∀ net ∈ convert_networks values,
      net.Valid ∧ 1 ≤ net.prefixlen) :
    (compile_network_filters values).isSome = true ∧
    (∀ ip, ip < 2 ^ 32 → queryV4 values ip =
      some (decide (∃ net ∈ convert_networks values,
        net.isV4 = true ∧ net.inRange ip))) ∧
    (∀ ip, ip < 2 ^ 128 → queryV6 values ip =
      some (decide (∃ net ∈ convert_networks values,
        net.isV4 = false ∧ net.inRange ip))) ∧
    (∀ values', values.Perm values' →
      (∀ ip, ip < 2 ^ 32 → queryV4 values' ip = queryV4 values ip) ∧
      (∀ ip, ip < 2 ^ 128 → queryV6 values' ip = queryV6 values ip)) := by
  obtain ⟨g4, g6, hc, _, _, h4, h6⟩ := compile_correct values hval
  refine ⟨by rw [hc]; rfl, fun ip hip => ?_, fun ip hip => ?_,
    fun values' hperm => ?_⟩
  · rw [queryV4, hc, Option.some_bind, h4 ip hip]
  · rw [queryV6, hc, Option.some_bind, h6 ip hip]
  · have hmem : ∀ net, net ∈ convert_networks values' ↔
        net ∈ convert_networks values :=
      fun net => (hperm.filterMap id).symm.mem_iff
    have hval' : ∀ net ∈ convert_networks values',
        net.Valid ∧ 1 ≤ net.prefixlen :=
      fun net hn => hval net ((hmem net).mp hn)
    obtain ⟨g4', g6', hc', _, _, h4', h6'⟩ := compile_correct values' hval'
    refine ⟨fun ip hip => ?_, fun ip hip => ?_⟩
    · rw [queryV4, hc', Option.some_bind, h4' ip hip,
        queryV4, hc, Option.some_bind, h4 ip hip]
      congr 1
      rw [decide_eq_decide]
      exact ⟨fun ⟨n, hn, hx⟩ => ⟨n, (hmem n).mp hn, hx⟩,
        fun ⟨n, hn, hx⟩ => ⟨n, (hmem n).mpr hn, hx⟩⟩
    · rw [queryV6, hc', Option.some_bind, h6' ip hip,
        queryV6, hc, Option.some_bind, h6 ip hip]
      congr 1
      rw [decide_eq_decide]
      exact ⟨fun ⟨n, hn, hx⟩ => ⟨n, (hmem n).mp hn, hx⟩,
        fun ⟨n, hn, hx⟩ => ⟨n, (hmem n).mpr hn, hx⟩⟩

/-- C1 counterexample: with the entries `0.0.0.0/1` then `0.0.0.0/0`
the compilation succeeds, yet the address `128.0.0.0` lies in the
parsed network `0.0.0.0/0` while the built filter answers false. -/
theorem claim1_counterexample :
    (compile_network_filters [some netHalf, some netZero]).isSome = true ∧
    netZero ∈ convert_networks [some netHalf, some netZero] ∧
    netZero.isV4 = true ∧ netZero.inRange 2147483648 ∧
    (2147483648 : Nat) < 2 ^ 32 ∧
    queryV4 [some netHalf, some netZero] 2147483648 = some false :=
  ⟨by decide, by decide, by decide, by decide, by decide, by decide⟩

/-- C1 witness: on the single entry `10.0.0.0/8` the built IPv4
filter answers true on `10.1.2.3`. -/
theorem claim1_witness :
    (∀ net ∈ convert_networks [some net10slash8],
      net.Valid ∧ 1 ≤ net.prefixlen) ∧
    queryV4 [some net10slash8] 167838211 = some true := by
  refine ⟨by decide, ?_⟩
  have h := (claim1_characterization [some net10slash8] (by decide)).2.1
    167838211 (by norm_num)
  rw [h]
  decide

/-- C3 (amended form): inserting a `/0` network raises a `ValueError`
instead of yielding a filter; otherwise, for every valid network with
positive prefix length, the first and last addresses of its block are
covered, the addresses one unit outside are not, and a host route
(`/32`, `/128`) covers exactly its one address. -/
theorem claim3_boundaries (net : Network) (hval : net.Valid) :
    (net.prefixlen = 0 → compile_network_filters [some net] = none) ∧
    (1 ≤ net.prefixlen →
      net.query [some net] net.addr = some true ∧
      net.query [some net] (net.addr + 2 ^ net.tpos - 1) = some true ∧
      (1 ≤ net.addr → net.query [some net] (net.addr - 1) = some false) ∧
      (net.addr + 2 ^ net.tpos < 2 ^ net.width →
        net.query [some net] (net.addr + 2 ^ net.tpos) = some false) ∧
      (net.prefixlen = net.width → ∀ ip, ip < 2 ^ net.width →
        (net.query [some net] ip = some true ↔ ip = net.addr))) := by
  have hpos : 0 < 2 ^ net.tpos := Nat.pos_pow_of_pos _ (by norm_num)
  have hbound := range_bound net hval
  have haddr : net.addr < 2 ^ net.width := hval.2.1
  constructor
  · intro hp0
    have htp : net.tpos = net.width := by
      rw [Network.tpos, hp0, Nat.sub_zero]
    rw [compile_network_filters,
      show convert_networks [some net] = [net] from rfl, List.foldlM_cons]
    by_cases hv : net.isV4
    · have hw : net.width = 32 := by rw [Network.width, if_pos hv]
      have hap : NetworkFilter.append (NetworkFilter.empty 31) net = none :=
        NetworkFilter.append_empty_none 31 net (by omega)
      rw [compileStep, if_pos hv, hap]
      rfl
    · have hw : net.width = 128 := by rw [Network.width, if_neg hv]
      have hap : NetworkFilter.append (NetworkFilter.empty 127) net = none :=
        NetworkFilter.append_empty_none 127 net (by omega)
      rw [compileStep, if_neg hv, hap]
      rfl
  · intro hp1
    have h1 := single_query net hval hp1
    refine ⟨?_, ?_, ?_, ?_, ?_⟩
    · rw [h1 net.addr haddr,
        decide_eq_true (show net.inRange net.addr from ⟨le_refl _, by omega⟩)]
    · rw [h1 (net.addr + 2 ^ net.tpos - 1) (by omega),
        decide_eq_true (show net.inRange (net.addr + 2 ^ net.tpos - 1) from
          ⟨by omega, by omega⟩)]
    · intro ha1
      rw [h1 (net.addr - 1) (by omega),
        decide_eq_false (show ¬ net.inRange (net.addr - 1) from
          fun hr => by obtain ⟨hx, _⟩ := hr; omega)]
    · intro hup
      rw [h1 (net.addr + 2 ^ net.tpos) (by omega),
        decide_eq_false (show ¬ net.inRange (net.addr + 2 ^ net.tpos) from
          fun hr => by obtain ⟨_, hx⟩ := hr; omega)]
    · intro hpw ip hip
      have htp0 : net.tpos = 0 := by
        rw [Network.tpos, hpw]
        omega
      rw [h1 ip hip]
      constructor
      · intro hq
        have hd := of_decide_eq_true (Option.some.inj hq)
        obtain ⟨hx, hy⟩ := hd
        rw [htp0] at hy
        omega
      · intro hip2
        rw [hip2,
          decide_eq_true (show net.inRange net.addr from ⟨le_refl _, by omega⟩)]

/-- C3 counterexample: inserting the `/0` network `0.0.0.0/0` does
not yield a filter at all — the compilation raises. -/
theorem claim3_counterexample :
    compile_network_filters [some netZero] = none := by decide

/-- C3 witness: boundary behaviour on the concrete block
`10.0.0.0/8` (first and last covered, one unit outside not). -/
theorem claim3_witness :
    net10slash8.Valid ∧
    net10slash8.query [some net10slash8] 167772160 = some true ∧
    net10slash8.query [some net10slash8] 184549375 = some true ∧
    net10slash8.query [some net10slash8] 167772159 = some false ∧
    net10slash8.query [some net10slash8] 184549376 = some false := by
  obtain ⟨ha, hb, hc, hd, _⟩ :=
    (claim3_boundaries net10slash8 (by decide)).2 (by decide)
  exact ⟨by decide, ha, hb, hc (by decide), hd (by decide)⟩

/-- C8: every query against a successfully compiled filter pair
resolves to a boolean — the walk never reaches a bit position below
0, which in this model would surface as a `none` answer. -/
theorem claim8_total (values : List (Option Network))
    (g4 g6 : NetworkFilter)
    (h : compile_network_filters values = some (g4, g6)) :
    ∀ ip, (∃ b, g4.containsIp ip = some b) ∧
      (∃ b, g6.containsIp ip = some b) := by
  rw [compile_network_filters] at h
  have hWF := NetworkFilter.fold_WF (convert_networks values)
    (NetworkFilter.empty ((31 : Nat) : Int))
    (NetworkFilter.empty ((127 : Nat) : Int)) g4 g6
    (NetworkFilter.WF_empty 31) (NetworkFilter.WF_empty 127) h
  intro ip
  constructor
  · have ht := (NetworkFilter.contains_total 31).2 g4 hWF.1 ip
    cases hcase : g4.containsIp ip with
    | none => rw [hcase] at ht; exact Bool.noConfusion ht
    | some b => exact ⟨b, rfl⟩
  · have ht := (NetworkFilter.contains_total 127).2 g6 hWF.2 ip
    cases hcase : g6.containsIp ip with
    | none => rw [hcase] at ht; exact Bool.noConfusion ht
    | some b => exact ⟨b, rfl⟩

/-- C8 witness: the filters compiled from `10.0.0.0/8` answer with a
boolean on a concrete query. -/
theorem claim8_witness :
    (∃ b, (compiledD [some net10slash8]).1.containsIp 167838211 = some b) ∧
    (∃ b, (compiledD [some net10slash8]).2.containsIp 167838211 = some b) :=
  claim8_total [some net10slash8] (compiledD [some net10slash8]).1
    (compiledD [some net10slash8]).2 rfl 167838211

/-- C2 witness: a record with an unrecognized type is rejected with
the unexpected-type error. -/
theorem claim2_witness :
    WarningList.build trivialParser recBadType false =
      .error .unexpectedType :=
  (claim2_type_invariant trivialParser recBadType false).mpr (by decide)
